import Mathlib

/-!
Verification of the AGI-lab debate/memory/drift/training core against its
natural-language specification.

The Python modules `debate.py`, `drift.py`, `memoryloop.py`, `trainer.py` and
`validator.py` are shallowly embedded below.  Python floats are modelled as
rationals (`ℚ`); every numeric comparison of the claims is exactly
representable, so no rounding behaviour is lost at the thresholds under
study.  Stateful code (the drift window, the micro-tuning credit table, the
seen-chunk set) is embedded by explicit state passing; effectful code
(the OpenAI call in `validator.validate`, file writes in `trainer`) is
embedded by returning the data that would be written and by taking the
sequence of external call results as an argument.
-/

namespace AGILab

/-! ### drift.py -/

/-- One debate's metric record, and equally the shape of a summary.
`drift.py` uses `Dict[str, float]` with exactly these three keys for both
samples and summaries (`compute_summary` always emits all three keys). -/
structure Metrics where
  agreement_rate : ℚ
  guardian_override_rate : ℚ
  avg_response_length_delta : ℚ
deriving DecidableEq, Repr

/-- Class `DriftWindow`: sliding window of the last `size` metric samples, newest
last.  Embeds `deque(maxlen=size)`. -/
structure DriftWindow where
  size : Nat
  window : List Metrics
deriving DecidableEq, Repr

/-- Method `DriftWindow.update`: `self._window.append(metrics)` on a
`deque(maxlen=size)` — append on the right, evicting from the left when the
capacity would be exceeded. -/
def DriftWindow.update (w : DriftWindow) (m : Metrics) : DriftWindow :=
  let w' := w.window ++ [m]
  { w with window := if w'.length > w.size then w'.drop (w'.length - w.size) else w' }

/-- Method `DriftWindow.compute_summary`: all-zero summary on an empty window,
otherwise the arithmetic mean of each of the three keys over the window. -/
def DriftWindow.compute_summary (w : DriftWindow) : Metrics :=
  if w.window = [] then ⟨0, 0, 0⟩
  else
    ⟨(w.window.map Metrics.agreement_rate).sum / w.window.length,
     (w.window.map Metrics.guardian_override_rate).sum / w.window.length,
     (w.window.map Metrics.avg_response_length_delta).sum / w.window.length⟩

/-- Function `check_drift`: drift is flagged when any of the three OR-combined
thresholds is crossed (`agreement_rate < 0.4`, `guardian_override_rate > 0.5`,
`avg_response_length_delta > 100`).  The Python reads the keys with
`dict.get` defaults; a summary always carries all three keys, so the fields
are total here. -/
def check_drift (m : Metrics) : Bool :=
  decide (m.agreement_rate < 2/5) ||
  decide (m.guardian_override_rate > 1/2) ||
  decide (m.avg_response_length_delta > 100)

lemma DriftWindow.update_window (w : DriftWindow) (m : Metrics) :
    (w.update m).window = (w.window ++ [m]).drop (w.window.length + 1 - w.size) ∧
    (w.update m).size = w.size := by
  unfold DriftWindow.update
  constructor
  · simp only
    split
    · simp [List.length_append]
    · rename_i h
      rw [List.length_append] at h
      have h1 : ([m] : List Metrics).length = 1 := rfl
      rw [h1] at h
      have : w.window.length + 1 - w.size = 0 := by omega
      simp [this]
  · rfl

lemma DriftWindow.update_length_le (w : DriftWindow) (m : Metrics) :
    (w.update m).window.length ≤ w.size := by
  have h := (w.update_window m).1
  have h1 : ([m] : List Metrics).length = 1 := rfl
  rw [h, List.length_drop, List.length_append, h1]
  omega

lemma DriftWindow.foldl_update_window (L : List Metrics) (w : DriftWindow)
    (h : w.window.length ≤ w.size) :
    (L.foldl DriftWindow.update w).window =
      (w.window ++ L).drop (w.window.length + L.length - w.size) ∧
    (L.foldl DriftWindow.update w).size = w.size := by
  induction L generalizing w with
  | nil =>
    simp only [List.foldl_nil, List.append_nil, List.length_nil, Nat.add_zero]
    have : w.window.length - w.size = 0 := by omega
    simp [this]
  | cons m L ih =>
    simp only [List.foldl_cons]
    obtain ⟨hw, hs⟩ := w.update_window m
    obtain ⟨ih1, ih2⟩ := ih (w.update m) (w.update_length_le m)
    refine ⟨?_, by rw [ih2, hs]⟩
    rw [ih1, hs, hw]
    have h1 : ([m] : List Metrics).length = 1 := rfl
    have hd : w.window.length + 1 - w.size ≤ (w.window ++ [m]).length := by
      rw [List.length_append, h1]; omega
    rw [← List.drop_append_of_le_length hd, List.drop_drop]
    rw [show (w.window ++ [m]) ++ L = w.window ++ m :: L by simp]
    congr 1
    simp only [List.length_drop, List.length_append, List.length_cons, List.length_nil]
    omega

/-- C3: `check_drift` returns true iff at least one of the three OR-combined
thresholds is crossed (`agreement_rate < 0.4`, `guardian_override_rate > 0.5`,
`avg_response_length_delta > 100`); in particular any summary with
`agreement_rate < 0.4` yields true, and any summary with all three metrics in
the safe range yields false. -/
theorem check_drift_thresholds (m : Metrics) :
    (check_drift m = true ↔
      (m.agreement_rate < 2/5 ∨ m.guardian_override_rate > 1/2 ∨
        m.avg_response_length_delta > 100)) ∧
    (m.agreement_rate < 2/5 → check_drift m = true) ∧
    (m.agreement_rate ≥ 2/5 → m.guardian_override_rate ≤ 1/2 →
      m.avg_response_length_delta ≤ 100 → check_drift m = false) := by
  refine ⟨?_, ?_, ?_⟩
  · simp [check_drift, or_assoc]
  · intro h
    simp [check_drift, h]
  · intro h1 h2 h3
    simp only [check_drift, Bool.or_eq_false_iff, decide_eq_false_iff_not, not_lt]
    exact ⟨⟨h1, h2⟩, h3⟩

/-- Witness for C3 at two concrete summaries: agreement rate 1/5 (below the
0.4 threshold, other metrics in range) flags drift; all metrics in the safe
range does not. -/
theorem check_drift_thresholds_witness :
    check_drift ⟨1/5, 0, 0⟩ = true ∧ check_drift ⟨1/2, 1/2, 50⟩ = false :=
  ⟨(check_drift_thresholds ⟨1/5, 0, 0⟩).2.1 (by norm_num),
   (check_drift_thresholds ⟨1/2, 1/2, 50⟩).2.2 (by norm_num) (by norm_num)
     (by norm_num)⟩

/-- C4: a `DriftWindow` never holds more than its configured capacity of
samples, and after inserting `capacity + k` samples into a fresh window the
summary is the arithmetic mean of each metric field over exactly the most
recent `capacity` samples (the first `k` are evicted, oldest first). -/
theorem drift_window_capacity_and_recent_mean (n k : Nat) (L : List Metrics)
    (hn : 0 < n) (hL : L.length = n + k) :
    (∀ M : List Metrics,
      (M.foldl DriftWindow.update (DriftWindow.mk n [])).window.length ≤ n) ∧
    (L.foldl DriftWindow.update (DriftWindow.mk n [])).window = L.drop k ∧
    (L.foldl DriftWindow.update (DriftWindow.mk n [])).compute_summary =
      ⟨((L.drop k).map Metrics.agreement_rate).sum / n,
       ((L.drop k).map Metrics.guardian_override_rate).sum / n,
       ((L.drop k).map Metrics.avg_response_length_delta).sum / n⟩ := by
  have hwin : ∀ M : List Metrics,
      (M.foldl DriftWindow.update (DriftWindow.mk n [])).window =
        M.drop (M.length - n) := by
    intro M
    have h := DriftWindow.foldl_update_window M (DriftWindow.mk n [])
      (by simp)
    simpa using h.1
  have hlen : ∀ M : List Metrics,
      (M.foldl DriftWindow.update (DriftWindow.mk n [])).window.length ≤ n := by
    intro M
    rw [hwin M, List.length_drop]
    omega
  have hLwin : (L.foldl DriftWindow.update (DriftWindow.mk n [])).window =
      L.drop k := by
    rw [hwin L, hL]
    congr 1
    omega
  refine ⟨hlen, hLwin, ?_⟩
  have hne : (L.foldl DriftWindow.update (DriftWindow.mk n [])).window ≠ [] := by
    rw [hLwin]
    intro hc
    have := congrArg List.length hc
    rw [List.length_drop, hL] at this
    simp at this
    omega
  have hlen' : (L.foldl DriftWindow.update (DriftWindow.mk n [])).window.length
      = n := by
    rw [hLwin, List.length_drop, hL]
    omega
  unfold DriftWindow.compute_summary
  rw [if_neg hne, hLwin]
  have hdl : (L.drop k).length = n := by
    rw [List.length_drop, hL]
    omega
  rw [hdl]

/-- Witness for C4: capacity 2, three samples inserted; the window keeps the
last two and the summary averages exactly those two. -/
theorem drift_window_capacity_and_recent_mean_witness :
    (0 < 2 ∧ ([⟨1, 0, 0⟩, ⟨0, 1, 0⟩, ⟨0, 0, 1⟩] : List Metrics).length = 2 + 1) ∧
    ((∀ M : List Metrics,
      (M.foldl DriftWindow.update (DriftWindow.mk 2 [])).window.length ≤ 2) ∧
    (([⟨1, 0, 0⟩, ⟨0, 1, 0⟩, ⟨0, 0, 1⟩] : List Metrics).foldl DriftWindow.update
        (DriftWindow.mk 2 [])).window =
      ([⟨1, 0, 0⟩, ⟨0, 1, 0⟩, ⟨0, 0, 1⟩] : List Metrics).drop 1 ∧
    (([⟨1, 0, 0⟩, ⟨0, 1, 0⟩, ⟨0, 0, 1⟩] : List Metrics).foldl DriftWindow.update
        (DriftWindow.mk 2 [])).compute_summary =
      ⟨((([⟨1, 0, 0⟩, ⟨0, 1, 0⟩, ⟨0, 0, 1⟩] : List Metrics).drop 1).map
          Metrics.agreement_rate).sum / 2,
       ((([⟨1, 0, 0⟩, ⟨0, 1, 0⟩, ⟨0, 0, 1⟩] : List Metrics).drop 1).map
          Metrics.guardian_override_rate).sum / 2,
       ((([⟨1, 0, 0⟩, ⟨0, 1, 0⟩, ⟨0, 0, 1⟩] : List Metrics).drop 1).map
          Metrics.avg_response_length_delta).sum / 2⟩) :=
  ⟨⟨by decide, by decide⟩,
   drift_window_capacity_and_recent_mean 2 1 [⟨1, 0, 0⟩, ⟨0, 1, 0⟩, ⟨0, 0, 1⟩]
     (by decide) (by decide)⟩

/-- C10: an empty `DriftWindow` summarises to the all-zero summary, and
`check_drift` on that summary returns true — the drift flag is raised before
any sample has been recorded, because `agreement_rate = 0.0 < 0.4`. -/
theorem empty_window_flags_drift (n : Nat) :
    (DriftWindow.mk n []).compute_summary = ⟨0, 0, 0⟩ ∧
    check_drift (DriftWindow.mk n []).compute_summary = true := by
  have h : (DriftWindow.mk n []).compute_summary = ⟨0, 0, 0⟩ := rfl
  refine ⟨h, ?_⟩
  rw [h]
  norm_num [check_drift]

/-! ### debate.py -/

/-- The draws `debate_once` takes from its `random.Random` argument: one mood
string per agent (`pick_mood(rng)` twice) and the value of
`rng.choice(["A", "B"])` consumed on a near-tie.  A fixed seed fixes this
draw sequence, so the whole outcome is a function of it. -/
structure Rng where
  mood_a : String
  mood_b : String
  tie_choice : String
deriving DecidableEq, Repr

/-- The dict returned by `debate_once`. -/
structure DebateOutcome where
  input : String
  mood_a : String
  resp_a : String
  mood_b : String
  resp_b : String
  winner : String
  reasoning : String
deriving DecidableEq, Repr

/-- Function `debate_once` after the join point: `text_a` / `text_b` are the message
contents extracted from the two agent responses.  The cheap critique compares
lengths: `diff = abs(len(text_a) - len(text_b))`; `diff < 10` → the winner is
the rng draw with the tie-break note, otherwise the longer answer wins with
the length-preference note. -/
def debate_once (user_input : String) (rng : Rng) (text_a text_b : String) :
    DebateOutcome :=
  if ((text_a.length : ℤ) - (text_b.length : ℤ)).natAbs < 10 then
    { input := user_input, mood_a := rng.mood_a, resp_a := text_a,
      mood_b := rng.mood_b, resp_b := text_b,
      winner := rng.tie_choice, reasoning := "similar length; random tie break" }
  else
    { input := user_input, mood_a := rng.mood_a, resp_a := text_a,
      mood_b := rng.mood_b, resp_b := text_b,
      winner := if text_a.length > text_b.length then "A" else "B",
      reasoning := "longer answer preferred" }

/-- C1: winner selection in `debate_once`.  When the absolute length
difference is below 10 the winner is exactly the random draw from
`{A, B}` and the reasoning is the tie-break note; otherwise the agent with
the longer response wins with the length-preference note.  In particular
lengths 50/45 put the winner in the rng's hands (hence identical across runs
with a fixed seed), and lengths 50/70 yield winner "B" regardless of the
rng. -/
theorem debate_once_winner_policy (u : String) (rng : Rng) (ta tb : String)
    (hchoice : rng.tie_choice = "A" ∨ rng.tie_choice = "B") :
    (((ta.length : ℤ) - (tb.length : ℤ)).natAbs < 10 →
      (debate_once u rng ta tb).winner = rng.tie_choice ∧
      ((debate_once u rng ta tb).winner = "A" ∨
        (debate_once u rng ta tb).winner = "B") ∧
      (debate_once u rng ta tb).reasoning = "similar length; random tie break") ∧
    (¬ ((ta.length : ℤ) - (tb.length : ℤ)).natAbs < 10 →
      (debate_once u rng ta tb).winner =
        (if ta.length > tb.length then "A" else "B") ∧
      (debate_once u rng ta tb).reasoning = "longer answer preferred") ∧
    (ta.length = 50 → tb.length = 45 →
      (debate_once u rng ta tb).winner = rng.tie_choice) ∧
    (ta.length = 50 → tb.length = 70 →
      (debate_once u rng ta tb).winner = "B") := by
  refine ⟨?_, ?_, ?_, ?_⟩
  · intro h
    simp only [debate_once, if_pos h]
    exact ⟨trivial, hchoice, trivial⟩
  · intro h
    simp only [debate_once, if_neg h]
    exact ⟨trivial, trivial⟩
  · intro ha hb
    have h : ((ta.length : ℤ) - (tb.length : ℤ)).natAbs < 10 := by
      rw [ha, hb]; decide
    simp only [debate_once, if_pos h]
  · intro ha hb
    have h : ¬ ((ta.length : ℤ) - (tb.length : ℤ)).natAbs < 10 := by
      rw [ha, hb]; decide
    have h' : ¬ ta.length > tb.length := by rw [ha, hb]; decide
    simp only [debate_once, if_neg h, if_neg h']

/-- Witness for C1: with a fixed rng whose tie draw is "A", a 50-char vs
45-char pair is decided by the rng (winner "A"), while a 50-char vs 70-char
pair is decided by length (winner "B"). -/
theorem debate_once_winner_policy_witness :
    (debate_once "q" ⟨"calm", "angry", "A"⟩
        (String.mk (List.replicate 50 'x')) (String.mk (List.replicate 45 'y'))).winner
      = "A" ∧
    (debate_once "q" ⟨"calm", "angry", "A"⟩
        (String.mk (List.replicate 50 'x')) (String.mk (List.replicate 70 'y'))).winner
      = "B" :=
  ⟨(debate_once_winner_policy "q" ⟨"calm", "angry", "A"⟩
      (String.mk (List.replicate 50 'x')) (String.mk (List.replicate 45 'y'))
      (Or.inl rfl)).2.2.1 (by decide) (by decide),
   (debate_once_winner_policy "q" ⟨"calm", "angry", "A"⟩
      (String.mk (List.replicate 50 'x')) (String.mk (List.replicate 70 'y'))
      (Or.inl rfl)).2.2.2 (by decide) (by decide)⟩

/-! ### memoryloop.py -/

/-- Python's `\s` character class over the characters `str` can hold
(space, tab, newline, carriage return, vertical tab, form feed). -/
def isPySpace (c : Char) : Bool :=
  c = ' ' || c = '\t' || c = '\n' || c = '\r' || c = '\x0b' || c = '\x0c'

/-- Python `str.strip()`: remove leading and trailing whitespace. -/
def pyStrip (s : String) : String :=
  ⟨((s.data.dropWhile isPySpace).reverse.dropWhile isPySpace).reverse⟩

lemma length_dropWhile_le (p : Char → Bool) (l : List Char) :
    (l.dropWhile p).length ≤ l.length := by
  induction l with
  | nil => simp [List.dropWhile]
  | cons c rest ih =>
    rw [List.dropWhile_cons]
    split
    · exact Nat.le_succ_of_le ih
    · simp

/-- Scanner for `re.split(r"[.?!]\s+", ·)`: a sentence-ending punctuation
character immediately followed by whitespace ends the current chunk, the
punctuation is dropped and the (greedy) whitespace run is consumed. -/
def splitChunksAux : List Char → List Char → List String
  | [], acc => [⟨acc.reverse⟩]
  | c :: rest, acc =>
    if (c = '.' || c = '?' || c = '!') &&
        (match rest with | r :: _ => isPySpace r | [] => false) then
      ⟨acc.reverse⟩ :: splitChunksAux (rest.dropWhile isPySpace) []
    else
      splitChunksAux rest (c :: acc)
termination_by l _ => l.length
decreasing_by
  · simp_wf
    have := length_dropWhile_le isPySpace rest
    omega
  · simp_wf

/-- Function `split_into_chunks`: `re.split(r"[.?!]\s+", text.strip())`. -/
def split_into_chunks (text : String) : List String :=
  splitChunksAux (pyStrip text).data []

/-- Python set `add` on the process-wide `_SEEN` set, modelled as a
duplicate-free list. -/
def addSeen (c : String) (seen : List String) : List String :=
  if c ∈ seen then seen else c :: seen

/-- Embeds `max((SequenceMatcher(None, c, s).ratio() for s in _SEEN), default=0)`:
the best similarity of `c` against the seen set; `simFn` abstracts
`difflib.SequenceMatcher(None, ·, ·).ratio()`, which is Python standard
library code external to the repository.  The `default=0` applies only to an
empty seen set, exactly as in the source. -/
def bestSim (simFn : String → String → ℚ) (c : String) (seen : List String) : ℚ :=
  match seen.map (simFn c) with
  | [] => 0
  | x :: xs => xs.foldl max x

/-- Function `tag_with_local_model`: each chunk is tagged `"known"` when its best
similarity against the seen set is strictly greater than 0.8 (the source
comparison is `sim > 0.8`), otherwise `"new"`; the chunk is then added to the
seen set regardless of its tag. -/
def tag_with_local_model (simFn : String → String → ℚ) :
    List String → List String → List (String × String) × List String
  | [], seen => ([], seen)
  | c :: rest, seen =>
    let tag := if bestSim simFn c seen > 4/5 then "known" else "new"
    let r := tag_with_local_model simFn rest (addSeen c seen)
    ((c, tag) :: r.1, r.2)

/-- A similarity function realising the exact threshold value: Python's
`SequenceMatcher(None, "ab", "abc").ratio()` is `2*2/(2+3) = 0.8`, and
`4.0/5` and the literal `0.8` round to the same IEEE double, so the source's
`sim > 0.8` comparison is exactly the rational comparison `4/5 > 4/5`. -/
def simAtThreshold (a b : String) : ℚ :=
  if a = "ab" ∧ b = "abc" then 4/5 else 0

/-- Counterexample to C8 as stated: a chunk whose best similarity against the
seen set is exactly 0.8 — so at least 0.8, as achieved by the real
`SequenceMatcher` on `"ab"` vs `"abc"` — is tagged `"new"`, not `"known"`:
the source tags `"known"` only on strictly greater than 0.8. -/
theorem tag_threshold_counterexample :
    bestSim simAtThreshold "ab" ["abc"] ≥ 4/5 ∧
    (tag_with_local_model simAtThreshold ["ab"] ["abc"]).1 = [("ab", "new")] := by
  constructor
  · norm_num [bestSim, simAtThreshold]
  · norm_num [tag_with_local_model, bestSim, simAtThreshold]

/-- C8 (amended): during tagging, the chunk at position `i` is tagged
`"known"` exactly when its best fuzzy-similarity against the seen set as of
that position is strictly greater than 0.8, and `"new"` otherwise; every
chunk is added to the seen set afterwards regardless of the tag it
received. -/
theorem tag_with_local_model_policy (simFn : String → String → ℚ)
    (chunks seen : List String) :
    (∀ i, (tag_with_local_model simFn chunks seen).1.get? i =
      (chunks.get? i).map (fun c =>
        (c, if bestSim simFn c
              ((chunks.take i).foldl (fun s x => addSeen x s) seen) > 4/5
            then "known" else "new"))) ∧
    (tag_with_local_model simFn chunks seen).2 =
      chunks.foldl (fun s x => addSeen x s) seen ∧
    (∀ c ∈ chunks, c ∈ (tag_with_local_model simFn chunks seen).2) ∧
    (∀ s ∈ seen, s ∈ (tag_with_local_model simFn chunks seen).2) := by
  have mem_addSeen_self : ∀ (c : String) (s : List String), c ∈ addSeen c s := by
    intro c s
    unfold addSeen
    split <;> simp [*]
  have mem_addSeen_of_mem : ∀ (x c : String) (s : List String),
      x ∈ s → x ∈ addSeen c s := by
    intro x c s h
    unfold addSeen
    split <;> simp [h]
  have mem_foldl_of_mem : ∀ (l : List String) (s : List String) (x : String),
      x ∈ s → x ∈ l.foldl (fun s y => addSeen y s) s := by
    intro l
    induction l with
    | nil => intro s x h; simpa using h
    | cons c rest ih =>
      intro s x h
      simpa using ih (addSeen c s) x (mem_addSeen_of_mem x c s h)
  induction chunks generalizing seen with
  | nil =>
    refine ⟨?_, rfl, ?_, ?_⟩
    · intro i
      simp [tag_with_local_model]
    · intro c hc
      simp at hc
    · intro s hs
      simpa [tag_with_local_model] using hs
  | cons c rest ih =>
    obtain ⟨ih1, ih2, ih3, ih4⟩ := ih (addSeen c seen)
    refine ⟨?_, ?_, ?_, ?_⟩
    · intro i
      match i with
      | 0 => simp [tag_with_local_model]
      | Nat.succ j =>
        simp only [tag_with_local_model, List.get?_cons_succ, List.take_succ_cons,
          List.foldl_cons]
        exact ih1 j
    · simpa [tag_with_local_model] using ih2
    · intro x hx
      rcases List.mem_cons.mp hx with h | h
      · subst h
        simp only [tag_with_local_model]
        exact ih4 x (mem_addSeen_self x seen)
      · simpa [tag_with_local_model] using ih3 x h
    · intro s hs
      simp only [tag_with_local_model]
      exact ih4 s (mem_addSeen_of_mem s c seen hs)

/-- Witness for C8 (amended): on the concrete run with the threshold-valued
similarity function the first chunk is tagged `"new"`, and both the chunk and
the previously seen string are in the final seen set. -/
theorem tag_with_local_model_policy_witness :
    ((tag_with_local_model simAtThreshold ["ab"] ["abc"]).1.get? 0 =
      some ("ab",
        if bestSim simAtThreshold "ab"
            ((["ab"].take 0).foldl (fun s x => addSeen x s) ["abc"]) > 4/5
        then "known" else "new")) ∧
    "ab" ∈ (tag_with_local_model simAtThreshold ["ab"] ["abc"]).2 ∧
    "abc" ∈ (tag_with_local_model simAtThreshold ["ab"] ["abc"]).2 :=
  ⟨(tag_with_local_model_policy simAtThreshold ["ab"] ["abc"]).1 0,
   (tag_with_local_model_policy simAtThreshold ["ab"] ["abc"]).2.2.1 "ab"
     (by simp),
   (tag_with_local_model_policy simAtThreshold ["ab"] ["abc"]).2.2.2 "abc"
     (by simp)⟩

/-- The dict returned by `validator.validate` / passed to `filter_memory` as
the guardian verdict: `{"verdict": ..., "rationale": ..., "confidence": ...}`. -/
structure GuardianVerdict where
  verdict : String
  rationale : String
  confidence : ℚ
deriving DecidableEq, Repr

/-- An entry of `filter_memory`'s `validated` list:
`{"text": ..., "tag": ..., "confidence": ...}`. -/
structure ValidatedMemory where
  text : String
  tag : String
  confidence : ℚ
deriving DecidableEq, Repr

/-- An entry of `filter_memory`'s `rejected` list:
`{"text": ..., "reason": ...}`. -/
structure RejectedMemory where
  text : String
  reason : String
deriving DecidableEq, Repr

/-- The dict returned by `filter_memory`. -/
structure FilterResult where
  validated : List ValidatedMemory
  rejected : List RejectedMemory
  confidence : ℚ
deriving DecidableEq, Repr

/-- The per-candidate loop of `filter_memory` over the tagged chunks,
accumulating `validated`, `rejected` and the guardian confidences.
Modelled from the spec: `memory_debate.py` (`CandidateMemory`,
`DebateConsensusEngine.debate_candidate`) is not among the repository
sources; per the spec the consensus sub-debate concludes with a status
string (ACCEPTED / REJECTED / DEADLOCKED), which is all this loop consumes,
so `consensus` abstracts `asyncio.run(engine.debate_candidate(cand))` and
`guardian` abstracts `guardian_fn(text, cand.debate_log)` (the log being a
function of the candidate text). -/
def filter_loop (consensus : String → String)
    (guardian : String → GuardianVerdict) :
    List (String × String) → List ValidatedMemory × List RejectedMemory × List ℚ
  | [] => ([], [], [])
  | item :: rest =>
    let r := filter_loop consensus guardian rest
    if consensus item.1 ≠ "ACCEPTED" then
      (r.1, ⟨item.1, consensus item.1⟩ :: r.2.1, r.2.2)
    else
      let v := guardian item.1
      if v.verdict = "reject" then
        (r.1, ⟨item.1, v.rationale⟩ :: r.2.1, r.2.2)
      else
        (⟨item.1, item.2, v.confidence⟩ :: r.1, r.2.1, v.confidence :: r.2.2)

/-- Function `filter_memory`: split the debate reasoning into candidate chunks, drop
the falsy (empty) ones, tag them against the seen set, run each through the
consensus sub-debate and, for ACCEPTED candidates, the guardian; the overall
confidence is the mean guardian confidence over validated chunks (0.0 when
none).  Returns the result dict and the updated seen set. -/
def filter_memory (simFn : String → String → ℚ) (debate_reasoning : String)
    (consensus : String → String) (guardian : String → GuardianVerdict)
    (seen : List String) : FilterResult × List String :=
  let candidates := (split_into_chunks debate_reasoning).filter (fun c => c != "")
  let tg := tag_with_local_model simFn candidates seen
  let r := filter_loop consensus guardian tg.1
  ({ validated := r.1, rejected := r.2.1,
     confidence := if r.2.2 = [] then 0 else r.2.2.sum / r.2.2.length }, tg.2)

lemma filter_loop_mem_rejected (consensus : String → String)
    (guardian : String → GuardianVerdict) (tagged : List (String × String))
    {c t : String} (h : (c, t) ∈ tagged) (hacc : consensus c = "ACCEPTED")
    (hrej : (guardian c).verdict = "reject") :
    (⟨c, (guardian c).rationale⟩ : RejectedMemory) ∈
      (filter_loop consensus guardian tagged).2.1 := by
  induction tagged with
  | nil => simp at h
  | cons item rest ih =>
    rcases List.mem_cons.mp h with he | he
    · subst he
      simp only [filter_loop]
      rw [if_neg (by simp [hacc])]
      rw [if_pos hrej]
      exact List.mem_cons_self _ _
    · have hm := ih he
      simp only [filter_loop]
      split
      · exact List.mem_cons_of_mem _ hm
      · split
        · exact List.mem_cons_of_mem _ hm
        · exact hm

lemma filter_loop_not_validated (consensus : String → String)
    (guardian : String → GuardianVerdict) (tagged : List (String × String))
    {c : String} (hrej : (guardian c).verdict = "reject") :
    ∀ v ∈ (filter_loop consensus guardian tagged).1, v.text ≠ c := by
  induction tagged with
  | nil => simp [filter_loop]
  | cons item rest ih =>
    intro v hv
    simp only [filter_loop] at hv
    rcases hsp : decide (consensus item.1 ≠ "ACCEPTED") with _ | _
    · rw [if_neg (of_decide_eq_false hsp)] at hv
      by_cases hg : (guardian item.1).verdict = "reject"
      · rw [if_pos hg] at hv
        exact ih v hv
      · rw [if_neg hg] at hv
        rcases List.mem_cons.mp hv with he | he
        · subst he
          intro hc
          simp only at hc
          rw [hc] at hg
          exact hg hrej
        · exact ih v he
    · rw [if_pos (of_decide_eq_true hsp)] at hv
      exact ih v hv

lemma filter_loop_mem_validated (consensus : String → String)
    (guardian : String → GuardianVerdict) (tagged : List (String × String))
    {c t : String} (h : (c, t) ∈ tagged) (hacc : consensus c = "ACCEPTED")
    (hnr : (guardian c).verdict ≠ "reject") :
    (⟨c, t, (guardian c).confidence⟩ : ValidatedMemory) ∈
      (filter_loop consensus guardian tagged).1 := by
  induction tagged with
  | nil => simp at h
  | cons item rest ih =>
    rcases List.mem_cons.mp h with he | he
    · subst he
      simp only [filter_loop]
      rw [if_neg (by simp [hacc])]
      rw [if_neg hnr]
      exact List.mem_cons_self _ _
    · have hm := ih he
      simp only [filter_loop]
      split
      · exact hm
      · split
        · exact hm
        · exact List.mem_cons_of_mem _ hm

lemma tag_with_local_model_exists_tag (simFn : String → String → ℚ)
    (chunks seen : List String) {c : String} (hc : c ∈ chunks) :
    ∃ t, (c, t) ∈ (tag_with_local_model simFn chunks seen).1 := by
  induction chunks generalizing seen with
  | nil => simp at hc
  | cons a rest ih =>
    rcases List.mem_cons.mp hc with he | he
    · subst he
      refine ⟨if bestSim simFn c seen > 4/5 then "known" else "new", ?_⟩
      simp only [tag_with_local_model]
      exact List.mem_cons_self _ _
    · obtain ⟨t, ht⟩ := ih (addSeen a seen) he
      refine ⟨t, ?_⟩
      simp only [tag_with_local_model]
      exact List.mem_cons_of_mem _ ht

/-- C2: routing of guardian verdicts in `filter_memory`.  For every candidate
chunk whose consensus sub-debate concludes ACCEPTED: a guardian verdict of
`"reject"` puts the chunk in `rejected` with the guardian's rationale as its
reason and the chunk never appears in `validated`; any other verdict
(including `"unsure"`) puts the chunk in `validated` carrying its tag and the
guardian confidence. -/
theorem filter_memory_guardian_routing (simFn : String → String → ℚ)
    (reasoning : String) (consensus : String → String)
    (guardian : String → GuardianVerdict) (seen : List String) (c : String)
    (hc : c ∈ (split_into_chunks reasoning).filter (fun x => x != ""))
    (hacc : consensus c = "ACCEPTED") :
    ((guardian c).verdict = "reject" →
      (⟨c, (guardian c).rationale⟩ : RejectedMemory) ∈
        (filter_memory simFn reasoning consensus guardian seen).1.rejected ∧
      ∀ v ∈ (filter_memory simFn reasoning consensus guardian seen).1.validated,
        v.text ≠ c) ∧
    ((guardian c).verdict ≠ "reject" →
      ∃ t, (c, t) ∈ (tag_with_local_model simFn
              ((split_into_chunks reasoning).filter (fun x => x != "")) seen).1 ∧
        (⟨c, t, (guardian c).confidence⟩ : ValidatedMemory) ∈
          (filter_memory simFn reasoning consensus guardian seen).1.validated) := by
  obtain ⟨t, ht⟩ := tag_with_local_model_exists_tag simFn
    ((split_into_chunks reasoning).filter (fun x => x != "")) seen hc
  constructor
  · intro hrej
    exact ⟨filter_loop_mem_rejected consensus guardian _ ht hacc hrej,
      filter_loop_not_validated consensus guardian _ hrej⟩
  · intro hnr
    exact ⟨t, ht, filter_loop_mem_validated consensus guardian _ ht hacc hnr⟩

/-- A concrete guardian for the C2 witness run: rejects the chunk
`"Good point"` with a rationale, accepts everything else with
confidence 0.9. -/
def guardianExample : String → GuardianVerdict := fun t =>
  if t = "Good point" then ⟨"reject", "too generic", 1/2⟩
  else ⟨"accept", "ok", 9/10⟩

/-- Witness for C2 on a concrete debate reasoning with two candidate chunks:
the guardian-rejected ACCEPTED chunk lands in `rejected` with the guardian's
rationale and is absent from `validated`; the guardian-accepted chunk lands
in `validated` with its tag and the guardian confidence. -/
theorem filter_memory_guardian_routing_witness :
    ((⟨"Good point", "too generic"⟩ : RejectedMemory) ∈
      (filter_memory simAtThreshold "Good point. Bad idea."
        (fun _ => "ACCEPTED") guardianExample []).1.rejected ∧
     ∀ v ∈ (filter_memory simAtThreshold "Good point. Bad idea."
        (fun _ => "ACCEPTED") guardianExample []).1.validated,
       v.text ≠ "Good point") ∧
    (∃ t, ("Bad idea.", t) ∈ (tag_with_local_model simAtThreshold
        ((split_into_chunks "Good point. Bad idea.").filter (fun x => x != ""))
        []).1 ∧
      (⟨"Bad idea.", t, 9/10⟩ : ValidatedMemory) ∈
        (filter_memory simAtThreshold "Good point. Bad idea."
          (fun _ => "ACCEPTED") guardianExample []).1.validated) :=
  ⟨(filter_memory_guardian_routing simAtThreshold "Good point. Bad idea."
      (fun _ => "ACCEPTED") guardianExample [] "Good point"
      (by simp [split_into_chunks, pyStrip, isPySpace, splitChunksAux])
      rfl).1 rfl,
   (filter_memory_guardian_routing simAtThreshold "Good point. Bad idea."
      (fun _ => "ACCEPTED") guardianExample [] "Bad idea."
      (by simp [split_into_chunks, pyStrip, isPySpace, splitChunksAux])
      rfl).2 (by simp [guardianExample])⟩

/-! ### trainer.py -/

/-- A memory item as consumed by the trainer:
`{"text": ..., "tag": ..., "confidence": ...}` (missing confidence reads as
0 via `m.get("confidence", 0)`). -/
structure MemoryItem where
  text : String
  tag : String
  confidence : ℚ
deriving DecidableEq, Repr

/-- Helper `_save_jsonl`: the records written to `data/lora_train.jsonl`, one line
per memory, each serialising a prompt/response pair that both carry the
memory's text. -/
def save_jsonl (memories : List MemoryItem) : List (String × String) :=
  memories.map (fun m => (m.text, m.text))

/-- The job descriptor materialised by `schedule_training`: the Modelfile
references the base model (`FROM`) and the dataset (`TRAIN`). -/
structure TrainingJob where
  base_model : String
  dataset : List (String × String)
deriving DecidableEq, Repr

/-- The selection predicate of `schedule_training`:
`m.get("tag") == "new" and m.get("confidence", 0) > 0.8`. -/
def qualifies (m : MemoryItem) : Bool :=
  m.tag == "new" && decide (m.confidence > 4/5)

/-- Function `schedule_training`: select the memories tagged `"new"` with confidence
strictly above 0.8; decline (`None`) when fewer than 5 qualify, otherwise
write the dataset and the Modelfile job descriptor. -/
def schedule_training (memories : List MemoryItem) (target_model : String) :
    Option TrainingJob :=
  let selected := memories.filter qualifies
  if selected.length < 5 then none
  else some ⟨target_model, save_jsonl selected⟩

/-- C5: `schedule_training` selects exactly the memories tagged NEW with
guardian confidence strictly greater than 0.8; it returns none when fewer
than 5 qualify, and with exactly 5 qualifying memories it returns a job
descriptor whose dataset holds exactly 5 records, one per selected memory. -/
theorem schedule_training_policy (memories : List MemoryItem)
    (target : String) :
    (∀ m, m ∈ memories.filter qualifies ↔
      m ∈ memories ∧ m.tag = "new" ∧ m.confidence > 4/5) ∧
    ((memories.filter qualifies).length < 5 →
      schedule_training memories target = none) ∧
    ((memories.filter qualifies).length = 5 →
      ∃ job, schedule_training memories target = some job ∧
        job.base_model = target ∧
        job.dataset = (memories.filter qualifies).map (fun m => (m.text, m.text)) ∧
        job.dataset.length = 5) := by
  refine ⟨?_, ?_, ?_⟩
  · intro m
    rw [List.mem_filter]
    unfold qualifies
    simp [and_assoc]
  · intro h
    unfold schedule_training
    simp only [if_pos h]
  · intro h
    refine ⟨⟨target, save_jsonl (memories.filter qualifies)⟩, ?_, rfl, rfl, ?_⟩
    · unfold schedule_training
      rw [if_neg (by omega)]
    · simp [save_jsonl, h]

/-- Witness for C5: with exactly four qualifying memories scheduling
declines; appending a fifth qualifying memory yields a job whose dataset has
exactly 5 records. -/
theorem schedule_training_policy_witness :
    schedule_training
      [⟨"m1", "new", 9/10⟩, ⟨"m2", "new", 9/10⟩, ⟨"m3", "new", 9/10⟩,
       ⟨"m4", "new", 9/10⟩, ⟨"m5", "known", 9/10⟩, ⟨"m6", "new", 1/2⟩]
      "llama3" = none ∧
    ∃ job, schedule_training
      [⟨"m1", "new", 9/10⟩, ⟨"m2", "new", 9/10⟩, ⟨"m3", "new", 9/10⟩,
       ⟨"m4", "new", 9/10⟩, ⟨"m5", "new", 9/10⟩] "llama3" = some job ∧
      job.base_model = "llama3" ∧
      job.dataset = (([⟨"m1", "new", 9/10⟩, ⟨"m2", "new", 9/10⟩,
          ⟨"m3", "new", 9/10⟩, ⟨"m4", "new", 9/10⟩,
          ⟨"m5", "new", 9/10⟩] : List MemoryItem).filter qualifies).map
        (fun m => (m.text, m.text)) ∧
      job.dataset.length = 5 :=
  ⟨(schedule_training_policy
      [⟨"m1", "new", 9/10⟩, ⟨"m2", "new", 9/10⟩, ⟨"m3", "new", 9/10⟩,
       ⟨"m4", "new", 9/10⟩, ⟨"m5", "known", 9/10⟩, ⟨"m6", "new", 1/2⟩]
      "llama3").2.1
        (by norm_num [List.filter, qualifies,
          show ("known" == "new") = false from by decide]),
   (schedule_training_policy
      [⟨"m1", "new", 9/10⟩, ⟨"m2", "new", 9/10⟩, ⟨"m3", "new", 9/10⟩,
       ⟨"m4", "new", 9/10⟩, ⟨"m5", "new", 9/10⟩] "llama3").2.2
        (by norm_num [List.filter, qualifies])⟩

/-- The agent with the shorter response, as selected by
`micro_finetune_step` (`loser = model_a if diff < 0 else model_b` with
`diff = len(resp_a) - len(resp_b)`). -/
def loserOf (ra rb a b : String) : String :=
  if ra.length < rb.length then a else b

/-- The per-call credit increment `abs(diff) / 1000`. -/
def microDelta (ra rb : String) : ℚ :=
  ((((ra.length : ℤ) - (rb.length : ℤ)).natAbs : ℚ)) / 1000

/-- Function `micro_finetune_step`: the per-agent credit table `_micro_state` is the
explicit map `st` (total, default 0.0); the returned pair is the updated
table and, when the threshold path is taken, the `schedule_training`
invocation it performs (target agent and the job that call returned). -/
def micro_finetune_step (st : String → ℚ) (resp_a resp_b : String)
    (validated : List MemoryItem) (model_a model_b : String) :
    (String → ℚ) × Option (String × Option TrainingJob) :=
  let diff : ℤ := (resp_a.length : ℤ) - (resp_b.length : ℤ)
  if diff = 0 then (st, none)
  else
    let loser := if diff < 0 then model_a else model_b
    let delta : ℚ := (diff.natAbs : ℚ) / 1000
    let st1 : String → ℚ := fun s => if s = loser then st loser + delta else st s
    if st1 loser > 1 ∧ validated ≠ [] then
      (fun s => if s = loser then 0 else st1 s,
       some (loser, schedule_training validated loser))
    else (st1, none)

/-- C6: `micro_finetune_step` is a no-op on equal response lengths; otherwise
it adds `|asymmetry| / 1000` to the shorter-responding agent's credit (a
strict increase, so consistent asymmetry accumulates monotonically), and in
any call where that agent's updated credit exceeds 1.0 and the validated
list is non-empty it invokes `schedule_training` for that agent and resets
its credit to 0 — regardless of whether a job descriptor was produced. -/
theorem micro_finetune_step_policy (st : String → ℚ) (ra rb : String)
    (validated : List MemoryItem) (a b : String) :
    (ra.length = rb.length →
      micro_finetune_step st ra rb validated a b = (st, none)) ∧
    (ra.length ≠ rb.length →
      ((st (loserOf ra rb a b) + microDelta ra rb > 1 ∧ validated ≠ []) →
        (micro_finetune_step st ra rb validated a b).1 (loserOf ra rb a b) = 0 ∧
        (micro_finetune_step st ra rb validated a b).2 =
          some (loserOf ra rb a b,
            schedule_training validated (loserOf ra rb a b))) ∧
      (¬ (st (loserOf ra rb a b) + microDelta ra rb > 1 ∧ validated ≠ []) →
        (micro_finetune_step st ra rb validated a b).1 (loserOf ra rb a b) =
          st (loserOf ra rb a b) + microDelta ra rb ∧
        (micro_finetune_step st ra rb validated a b).2 = none ∧
        st (loserOf ra rb a b) <
          st (loserOf ra rb a b) + microDelta ra rb)) := by
  have hd0 : (((ra.length : ℤ) - (rb.length : ℤ)) = 0) ↔ ra.length = rb.length := by
    rw [sub_eq_zero]
    exact_mod_cast Iff.rfl
  constructor
  · intro h
    simp only [micro_finetune_step, if_pos (hd0.mpr h)]
  · intro h
    have hdne : ((ra.length : ℤ) - (rb.length : ℤ)) ≠ 0 := fun hc => h (hd0.mp hc)
    have hloser : (if ((ra.length : ℤ) - (rb.length : ℤ)) < 0 then a else b) =
        loserOf ra rb a b := by
      unfold loserOf
      by_cases hlt : ra.length < rb.length
      · rw [if_pos hlt, if_pos (by omega)]
      · rw [if_neg (by omega), if_neg hlt]
    have hdelta : 0 < microDelta ra rb := by
      unfold microDelta
      have hne : ((ra.length : ℤ) - (rb.length : ℤ)).natAbs ≠ 0 :=
        fun hc => hdne (Int.natAbs_eq_zero.mp hc)
      have h1 : (1 : ℚ) ≤ ((((ra.length : ℤ) - (rb.length : ℤ)).natAbs : ℚ)) := by
        exact_mod_cast Nat.one_le_iff_ne_zero.mpr hne
      linarith
    have hstep : micro_finetune_step st ra rb validated a b =
        (if st (loserOf ra rb a b) + microDelta ra rb > 1 ∧ validated ≠ [] then
          ((fun s => if s = loserOf ra rb a b then 0
              else if s = loserOf ra rb a b then
                st (loserOf ra rb a b) + microDelta ra rb
              else st s),
           some (loserOf ra rb a b, schedule_training validated (loserOf ra rb a b)))
        else ((fun s => if s = loserOf ra rb a b then
                st (loserOf ra rb a b) + microDelta ra rb
              else st s), none)) := by
      simp only [micro_finetune_step, if_neg hdne, hloser, microDelta]
      simp
    by_cases hc : st (loserOf ra rb a b) + microDelta ra rb > 1 ∧ validated ≠ []
    · rw [if_pos hc] at hstep
      refine ⟨fun _ => ?_, fun hn => absurd hc hn⟩
      rw [hstep]
      constructor
      · simp
      · rfl
    · rw [if_neg hc] at hstep
      refine ⟨fun hcc => absurd hcc hc, fun _ => ?_⟩
      rw [hstep]
      refine ⟨by simp, rfl, by linarith⟩

/-- Witness for C6: equal lengths are a no-op; a 2-character asymmetry below
the threshold adds `2/1000` to the losing agent "B"; starting from credit 1,
the same asymmetry crosses the threshold with a non-empty validated list, so
the call schedules training for "B" and resets its credit to 0. -/
theorem micro_finetune_step_policy_witness :
    (micro_finetune_step (fun _ => 0) "x" "x" [] "A" "B" = ((fun _ => 0), none)) ∧
    ((micro_finetune_step (fun _ => 0) "xy" "" [] "A" "B").1
        (loserOf "xy" "" "A" "B") =
      (fun _ => (0 : ℚ)) (loserOf "xy" "" "A" "B") + microDelta "xy" "" ∧
     (micro_finetune_step (fun _ => 0) "xy" "" [] "A" "B").2 = none) ∧
    ((micro_finetune_step (fun _ => 1) "xy" ""
        [⟨"t", "new", 9/10⟩] "A" "B").1 (loserOf "xy" "" "A" "B") = 0 ∧
     (micro_finetune_step (fun _ => 1) "xy" ""
        [⟨"t", "new", 9/10⟩] "A" "B").2 =
      some (loserOf "xy" "" "A" "B",
        schedule_training [⟨"t", "new", 9/10⟩] (loserOf "xy" "" "A" "B"))) :=
  ⟨(micro_finetune_step_policy (fun _ => 0) "x" "x" [] "A" "B").1 rfl,
   (by
      have h := ((micro_finetune_step_policy (fun _ => 0) "xy" "" [] "A" "B").2
        (by decide)).2 (fun hcc => hcc.2 rfl)
      exact ⟨h.1, h.2.1⟩),
   ((micro_finetune_step_policy (fun _ => 1) "xy" ""
        [⟨"t", "new", 9/10⟩] "A" "B").2 (by decide)).1
     ⟨by norm_num [microDelta]; decide, by simp⟩⟩

/-! ### validator.py -/

/-- Python `str.splitlines()` over the line boundaries that occur in chat
completions: `\n`, `\r\n` and `\r`; no trailing empty line for a trailing
terminator. -/
def pySplitlines : List Char → List Char → List String
  | [], acc => if acc.isEmpty then [] else [⟨acc.reverse⟩]
  | '\r' :: '\n' :: rest, acc => ⟨acc.reverse⟩ :: pySplitlines rest []
  | '\n' :: rest, acc => ⟨acc.reverse⟩ :: pySplitlines rest []
  | '\r' :: rest, acc => ⟨acc.reverse⟩ :: pySplitlines rest []
  | c :: rest, acc => pySplitlines rest (c :: acc)

/-- The lines of a guardian reply: `content.splitlines()`. -/
def splitIntoLines (s : String) : List String := pySplitlines s.data []

/-- Embeds `line.upper().startswith(key)` for an ASCII `key`:
case-insensitive match of `key` at the start of the line. -/
def upperStartsWith (line key : String) : Bool :=
  (line.data.take key.length).map Char.toUpper == key.data

/-- Embeds `line.split(":", 1)[1]`: everything after the first colon (the branches
that use it only fire on lines that contain one). -/
def afterColon (line : String) : String :=
  match line.data.dropWhile (fun c => c != ':') with
  | _ :: rest => ⟨rest⟩
  | [] => ""

/-- Python `str.lower()` on ASCII data. -/
def lowerChars (s : String) : String := ⟨s.data.map Char.toLower⟩

/-- One iteration of the parsing loop over the guardian reply's lines:
`VERDICT:` lines set the verdict (stripped, lowered), `RATIONALE:` lines set
the rationale (stripped), `CONFIDENCE:` lines set the confidence when the
payload parses as a float and are ignored otherwise (`except ValueError:
pass`); `pf` abstracts Python's built-in `float(...)` returning `none` where
it would raise. -/
def parse_line_step (pf : String → Option ℚ) (acc : GuardianVerdict)
    (line : String) : GuardianVerdict :=
  if upperStartsWith line "VERDICT:" then
    { acc with verdict := lowerChars (pyStrip (afterColon line)) }
  else if upperStartsWith line "RATIONALE:" then
    { acc with rationale := pyStrip (afterColon line) }
  else if upperStartsWith line "CONFIDENCE:" then
    match pf (pyStrip (afterColon line)) with
    | some q => { acc with confidence := q }
    | none => acc
  else acc

/-- The parse of one successful guardian reply, starting from the defaults
`verdict="unsure"`, `rationale=""`, `conf=0.0`. -/
def parse_guardian_reply (pf : String → Option ℚ) (content : String) :
    GuardianVerdict :=
  (splitIntoLines content).foldl (parse_line_step pf) ⟨"unsure", "", 0⟩

/-- The retry loop `for attempt in range(retries)`: each element of
`attempts` is the outcome of one `openai.ChatCompletion.create` call plus
content extraction — `some content` on success, `none` where the Python
raises (and sleeps, then retries); the first success within the budget
wins. -/
def tryAttempts : Nat → List (Option String) → Option String
  | 0, _ => none
  | _ + 1, [] => none
  | n + 1, attempt :: rest =>
    match attempt with
    | some content => some content
    | none => tryAttempts n rest

/-- Function `validator.validate`, with the environment made explicit: whether the
`openai` import succeeded, the value of the API-key environment variable
(`none` when unset; the empty string is also falsy in `if not api_key`), and
the outcomes of the up-to-3 arbiter calls. -/
def validate (pf : String → Option ℚ) (openaiAvailable : Bool)
    (apiKey : Option String) (attempts : List (Option String)) :
    GuardianVerdict :=
  if openaiAvailable = false then ⟨"unsure", "openai unavailable", 0⟩
  else
    match apiKey with
    | none => ⟨"unsure", "missing API key", 0⟩
    | some k =>
      if k = "" then ⟨"unsure", "missing API key", 0⟩
      else
        match tryAttempts 3 attempts with
        | some content => parse_guardian_reply pf content
        | none => ⟨"unsure", "Validator unreachable after retries.", 0⟩

lemma tryAttempts_all_none (n : Nat) (l : List (Option String))
    (h : ∀ x ∈ l, x = none) : tryAttempts n l = none := by
  induction n generalizing l with
  | zero => rfl
  | succ n ih =>
    cases l with
    | nil => rfl
    | cons a rest =>
      have ha := h a (List.mem_cons_self a rest)
      subst ha
      simp only [tryAttempts]
      exact ih rest (fun x hx => h x (List.mem_cons_of_mem _ hx))

lemma parse_foldl_verdict (pf : String → Option ℚ) (lines : List String)
    (acc : GuardianVerdict)
    (h : ∀ l ∈ lines, upperStartsWith l "VERDICT:" = false) :
    (lines.foldl (parse_line_step pf) acc).verdict = acc.verdict := by
  induction lines generalizing acc with
  | nil => rfl
  | cons l rest ih =>
    rw [List.foldl_cons]
    have hl := h l (List.mem_cons_self l rest)
    have hstep : (parse_line_step pf acc l).verdict = acc.verdict := by
      unfold parse_line_step
      rw [if_neg (by simp [hl])]
      split
      · rfl
      · split
        · split <;> rfl
        · rfl
    rw [ih _ (fun x hx => h x (List.mem_cons_of_mem l hx)), hstep]

lemma parse_foldl_rationale (pf : String → Option ℚ) (lines : List String)
    (acc : GuardianVerdict)
    (h : ∀ l ∈ lines, upperStartsWith l "RATIONALE:" = false) :
    (lines.foldl (parse_line_step pf) acc).rationale = acc.rationale := by
  induction lines generalizing acc with
  | nil => rfl
  | cons l rest ih =>
    rw [List.foldl_cons]
    have hl := h l (List.mem_cons_self l rest)
    have hstep : (parse_line_step pf acc l).rationale = acc.rationale := by
      unfold parse_line_step
      split
      · rfl
      · rw [if_neg (by simp [hl])]
        split
        · split <;> rfl
        · rfl
    rw [ih _ (fun x hx => h x (List.mem_cons_of_mem l hx)), hstep]

lemma parse_foldl_confidence (pf : String → Option ℚ) (lines : List String)
    (acc : GuardianVerdict)
    (h : ∀ l ∈ lines, upperStartsWith l "CONFIDENCE:" = true →
      pf (pyStrip (afterColon l)) = none) :
    (lines.foldl (parse_line_step pf) acc).confidence = acc.confidence := by
  induction lines generalizing acc with
  | nil => rfl
  | cons l rest ih =>
    rw [List.foldl_cons]
    have hl := h l (List.mem_cons_self l rest)
    have hstep : (parse_line_step pf acc l).confidence = acc.confidence := by
      unfold parse_line_step
      split
      · rfl
      · split
        · rfl
        · split
          · rename_i hcmatch
            rw [hl hcmatch]
          · rfl
    rw [ih _ (fun x hx => h x (List.mem_cons_of_mem l hx)), hstep]

/-- C7: `validate` never raises — every failure path yields a verdict dict.
Unavailable `openai` module, missing/empty API key, and an arbiter
unreachable on all 3 attempts each return verdict `"unsure"` with confidence
0.0 and a rationale naming the cause; a successful reply is parsed, and any
of the VERDICT/RATIONALE/CONFIDENCE fields (prefix matched
case-insensitively) that is missing — or, for CONFIDENCE, whose payload does
not parse as a float — keeps its default `"unsure"` / `""` / `0.0`. -/
theorem validate_unsure_fallbacks (pf : String → Option ℚ) (key : String)
    (attempts : List (Option String)) (content : String) :
    (validate pf false (some key) attempts =
      ⟨"unsure", "openai unavailable", 0⟩) ∧
    (validate pf true none attempts = ⟨"unsure", "missing API key", 0⟩) ∧
    (validate pf true (some "") attempts = ⟨"unsure", "missing API key", 0⟩) ∧
    (key ≠ "" → (∀ x ∈ attempts, x = none) →
      validate pf true (some key) attempts =
        ⟨"unsure", "Validator unreachable after retries.", 0⟩) ∧
    (key ≠ "" →
      validate pf true (some key) (some content :: attempts) =
        parse_guardian_reply pf content) ∧
    ((∀ l ∈ splitIntoLines content, upperStartsWith l "VERDICT:" = false) →
      (parse_guardian_reply pf content).verdict = "unsure") ∧
    ((∀ l ∈ splitIntoLines content, upperStartsWith l "RATIONALE:" = false) →
      (parse_guardian_reply pf content).rationale = "") ∧
    ((∀ l ∈ splitIntoLines content,
        upperStartsWith l "CONFIDENCE:" = true →
          pf (pyStrip (afterColon l)) = none) →
      (parse_guardian_reply pf content).confidence = 0) := by
  refine ⟨rfl, rfl, rfl, ?_, ?_, ?_, ?_, ?_⟩
  · intro hk hall
    unfold validate
    rw [if_neg (by simp)]
    simp only
    rw [if_neg hk, tryAttempts_all_none 3 attempts hall]
  · intro hk
    unfold validate
    rw [if_neg (by simp)]
    simp only
    rw [if_neg hk]
    rfl
  · intro h
    exact parse_foldl_verdict pf (splitIntoLines content) ⟨"unsure", "", 0⟩ h
  · intro h
    exact parse_foldl_rationale pf (splitIntoLines content) ⟨"unsure", "", 0⟩ h
  · intro h
    exact parse_foldl_confidence pf (splitIntoLines content) ⟨"unsure", "", 0⟩ h

/-- Witness for C7: with a float parser that always fails, a real key, all
three arbiter attempts failing, and a two-line reply containing none of the
expected field markers, every fallback clause of the theorem fires. -/
theorem validate_unsure_fallbacks_witness :
    (validate (fun _ => none) false (some "k") [none, none, none] =
      ⟨"unsure", "openai unavailable", 0⟩) ∧
    (validate (fun _ => none) true (some "k") [none, none, none] =
      ⟨"unsure", "Validator unreachable after retries.", 0⟩) ∧
    ((parse_guardian_reply (fun _ => none) "hello\nCONFIDENCE: high").verdict =
      "unsure") ∧
    ((parse_guardian_reply (fun _ => none) "hello\nCONFIDENCE: high").rationale =
      "") ∧
    ((parse_guardian_reply (fun _ => none) "hello\nCONFIDENCE: high").confidence =
      0) :=
  ⟨(validate_unsure_fallbacks (fun _ => none) "k" [none, none, none]
      "hello\nCONFIDENCE: high").1,
   (validate_unsure_fallbacks (fun _ => none) "k" [none, none, none]
      "hello\nCONFIDENCE: high").2.2.2.1 (by decide) (by decide),
   (validate_unsure_fallbacks (fun _ => none) "k" [none, none, none]
      "hello\nCONFIDENCE: high").2.2.2.2.2.1 (by decide),
   (validate_unsure_fallbacks (fun _ => none) "k" [none, none, none]
      "hello\nCONFIDENCE: high").2.2.2.2.2.2.1 (by decide),
   (validate_unsure_fallbacks (fun _ => none) "k" [none, none, none]
      "hello\nCONFIDENCE: high").2.2.2.2.2.2.2
     (by intro l hl hm; rfl)⟩
